import Mathlib

/-
Verification of the autonat-v2 client dial-back connection handler
(protocols/autonatv2/src/client/handler/dial_back.rs).

The handler owns a bounded pool of in-flight dial-back reads
(futures_bounded::FuturesSet), admits newly negotiated inbound streams
into it, and reports each completion exactly once to the behaviour
layer.  The pool, the wire codec (DialBack::read_from) and the
DeniedUpgrade outbound stub live in sibling crates of the repository
that are not part of the verified sources; they are modelled from the
specification and marked as such in their doc comments.  Everything
else is a direct shallow embedding of dial_back.rs.
-/

namespace DialBackHandler

/-- Nonce: the opaque 64-bit token carried by a dial-back message
(type Nonce = u64 in the crate).  Only transported, never computed
with, so it is embedded as Nat. -/
abbrev Nonce := Nat

/-- Milliseconds; embeds std::time::Duration values used for deadlines. -/
abbrev Duration := Nat

/-- Kinds of std::io::Error relevant to the handler.  timedOut is the
kind the handler manufactures for pool timeouts; the others stand for
arbitrary error kinds an underlying stream may produce. -/
inductive IOErrorKind where
  | timedOut
  | unexpectedEof
  | connectionReset
  | otherKind
deriving DecidableEq, Repr

/-- std::io::Error: a kind plus its payload, rendered as a string. -/
structure IOError where
  kind : IOErrorKind
  msg : String
deriving DecidableEq, Repr

/-- io::Error::new(kind, payload). -/
def IOError.new (kind : IOErrorKind) (msg : String) : IOError :=
  ⟨kind, msg⟩

/-- futures_bounded::Timeout: the eviction error produced when an
admitted operation exceeds its deadline; carries the configured limit. -/
structure Timeout where
  limit : Duration
deriving DecidableEq, Repr

/-- The display payload of a Timeout value, used when it is wrapped
into an io::Error by the handler. -/
def Timeout.message (_t : Timeout) : String :=
  "future timed out"

/-- The dial-back wire message: a single nonce field
(crate::request_response::DialBack). -/
structure DialBack where
  nonce : Nonce
deriving DecidableEq, Repr

instance {ε α : Type _} [DecidableEq ε] [DecidableEq α] : DecidableEq (Except ε α) := fun
  | Except.error a, Except.error b =>
    if h : a = b then isTrue (by rw [h]) else isFalse (by intro he; cases he; exact h rfl)
  | Except.error _, Except.ok _ => isFalse (by intro h; cases h)
  | Except.ok _, Except.error _ => isFalse (by intro h; cases h)
  | Except.ok a, Except.ok b =>
    if h : a = b then isTrue (by rw [h]) else isFalse (by intro he; cases he; exact h rfl)

/-- Modelled from the spec: a negotiated dial-back substream.  The
codec crate::request_response::DialBack::read_from and the stream's
close are outside the verified sources; per the spec the core's only
contract with them is an async read that yields the whole message or
fails, and a close/flush that completes or fails.  A stream is
therefore embedded as the outcome of its one read and the outcome of
its one close. -/
structure DialBackStream where
  readResult : Except IOError DialBack
  closeResult : Except IOError Unit
deriving DecidableEq, Repr

/-- Modelled from the spec: DialBack::read_from — read one structured
dial-back message from the stream, yielding it or the stream's error. -/
def DialBack.read_from (stream : DialBackStream) : Except IOError DialBack :=
  stream.readResult

/-- The observable outcome of one run of perform_dial_back: the value
returned, and whether stream.close() was invoked before returning. -/
structure DialBackRun where
  result : Except IOError Nonce
  closeCalled : Bool
deriving DecidableEq, Repr

/-- perform_dial_back from dial_back.rs:
read one DialBack message (the ? operator returns its error early,
without touching the stream again), then close the stream (again
returning any error early), then return the nonce. -/
def perform_dial_back (stream : DialBackStream) : DialBackRun :=
  match DialBack.read_from stream with
  | Except.error e => ⟨Except.error e, false⟩
  | Except.ok message =>
    match stream.closeResult with
    | Except.error e => ⟨Except.error e, true⟩
    | Except.ok _ => ⟨Except.ok message.nonce, true⟩

/-- Modelled from the spec: DEFAULT_TIMEOUT, the per-operation
deadline constant defined in the parent client handler module (not
under the verified sources); the spec suggests low single-digit
seconds.  Its exact value is immaterial to every claim. -/
def DEFAULT_TIMEOUT : Duration := 10000

/-- Modelled from the spec: MAX_CONCURRENT_REQUESTS, the pool capacity
constant defined in the parent client handler module (not under the
verified sources); the spec suggests low tens of requests.  Its exact
value is immaterial to every claim. -/
def MAX_CONCURRENT_REQUESTS : Nat := 10

/-- Modelled from the spec: futures_bounded::FuturesSet (the repo's
misc/futures-bounded crate, not under the verified sources),
specialised to the dial-back task the handler stores in it.  Per the
spec it is a capacity- and deadline-bounded container of in-flight
operations.  An admitted operation is the future
perform_dial_back(stream); since that future is fully determined by
its stream, the pool stores the stream, tagged with a model-level
identifier so that distinct admitted streams stay distinguishable. -/
structure FuturesSet where
  timeout_ms : Duration
  capacity : Nat
  pending : List (Nat × DialBackStream)
deriving DecidableEq, Repr

/-- Modelled from the spec: FuturesSet::new(timeout, capacity) —
an empty pool with the given deadline and capacity. -/
def FuturesSet.new (timeout_ms : Duration) (capacity : Nat) : FuturesSet :=
  ⟨timeout_ms, capacity, []⟩

/-- Modelled from the spec: FuturesSet::try_push — non-blocking
admission; fails immediately, returning the rejected operation, when
the capacity is already fully occupied. -/
def FuturesSet.try_push (s : FuturesSet) (op : Nat × DialBackStream) :
    Except (Nat × DialBackStream) FuturesSet :=
  if s.pending.length < s.capacity then
    Except.ok ⟨s.timeout_ms, s.capacity, s.pending ++ [op]⟩
  else
    Except.error op

/-- First pending stream tagged with the given identifier, if any. -/
def findOp : List (Nat × DialBackStream) → Nat → Option DialBackStream
  | [], _ => none
  | p :: ps, i => if p.1 = i then some p.2 else findOp ps i

/-- Remove the first pending operation tagged with the given
identifier. -/
def removeOp : List (Nat × DialBackStream) → Nat → List (Nat × DialBackStream)
  | [], _ => []
  | p :: ps, i => if p.1 = i then ps else p :: removeOp ps i

/-- Modelled from the spec: FuturesSet::poll_unpin.  The scheduler
(the environment) chooses which admitted operation, if any, is ready
at this poll, and whether it became ready by completing or by
exceeding its deadline; the pool removes that operation and yields its
outcome, Err(Timeout) on eviction and Ok(result of the admitted
future) on completion.  With no ready operation the pool yields
nothing (Poll::Pending). -/
def FuturesSet.poll (s : FuturesSet) (sched : Option (Nat × Bool)) :
    FuturesSet × Option (Except Timeout (Except IOError Nonce)) :=
  match sched with
  | none => (s, none)
  | some (i, timedOut) =>
    match findOp s.pending i with
    | none => (s, none)
    | some stream =>
      (⟨s.timeout_ms, s.capacity, removeOp s.pending i⟩,
       some (if timedOut then Except.error ⟨s.timeout_ms⟩
             else Except.ok (perform_dial_back stream).result))

/-- The handler state from dial_back.rs: it owns only the bounded
pool of in-flight inbound dial-back reads. -/
structure Handler where
  inbound : FuturesSet
deriving DecidableEq, Repr

/-- Handler::new from dial_back.rs: builds the pool from the two
module-level constants; the constructor takes no parameters. -/
def Handler.new : Handler :=
  ⟨FuturesSet.new DEFAULT_TIMEOUT MAX_CONCURRENT_REQUESTS⟩

/-- The connection-level events dispatched to on_connection_event:
a successfully negotiated inbound stream (carrying the negotiated
protocol output, i.e. the stream), a failed inbound upgrade, and the
catch-all for every other event kind, which the handler's match
ignores. -/
inductive ConnectionEvent where
  | fullyNegotiatedInbound (streamId : Nat) (protocol : DialBackStream)
  | listenUpgradeError
  | otherEvent
deriving DecidableEq, Repr

/-- The two tracing side effects of on_connection_event. -/
inductive LogEvent where
  | warnDroppedRequest
  | debugUpgradeError
deriving DecidableEq, Repr

/-- Handler::on_connection_event from dial_back.rs.  On
FullyNegotiatedInbound it tries to admit perform_dial_back(protocol)
into the pool and logs a warning when the pool rejects it; on
ListenUpgradeError it only logs at debug level; every other event is
ignored.  The Rust function returns unit, so no upward event can be
produced here; the log side effect is returned explicitly. -/
def Handler.on_connection_event (h : Handler) (event : ConnectionEvent) :
    Handler × Option LogEvent :=
  match event with
  | ConnectionEvent.fullyNegotiatedInbound streamId protocol =>
    match h.inbound.try_push (streamId, protocol) with
    | Except.ok pool => (⟨pool⟩, none)
    | Except.error _ => (h, some LogEvent.warnDroppedRequest)
  | ConnectionEvent.listenUpgradeError => (h, some LogEvent.debugUpgradeError)
  | ConnectionEvent.otherEvent => (h, none)

/-- type ToBehaviour = io::Result<Nonce>. -/
abbrev ToBehaviour := Except IOError Nonce

/-- The events a ConnectionHandler's poll may yield: an upward
notification to the behaviour, or a request for an outbound
substream (which this handler never issues). -/
inductive ConnectionHandlerEvent where
  | notifyBehaviour (r : ToBehaviour)
  | outboundSubstreamRequest
deriving DecidableEq, Repr

/-- Poll::Ready / Poll::Pending for the handler's poll. -/
inductive HPoll where
  | ready (e : ConnectionHandlerEvent)
  | pendingPoll
deriving DecidableEq, Repr

/-- The result mapping inside Handler::poll:
result.map_err(|timeout| io::Error::new(io::ErrorKind::TimedOut, timeout))
      .and_then(identity). -/
def flattenCompletion (r : Except Timeout ToBehaviour) : ToBehaviour :=
  Except.bind
    (Except.mapError (fun t => IOError.new IOErrorKind.timedOut t.message) r)
    id

/-- Handler::poll from dial_back.rs: poll the pool; when it yields a
result, return Poll::Ready(NotifyBehaviour) of the flattened result;
otherwise return Poll::Pending. -/
def Handler.poll (h : Handler) (sched : Option (Nat × Bool)) : Handler × HPoll :=
  match h.inbound.poll sched with
  | (pool, some result) => (⟨pool⟩, HPoll.ready (ConnectionHandlerEvent.notifyBehaviour (flattenCompletion result)))
  | (pool, none) => (⟨pool⟩, HPoll.pendingPoll)

/-- Handler::connection_keep_alive from dial_back.rs: always false. -/
def Handler.connection_keep_alive (_h : Handler) : Bool :=
  false

/-- Modelled from the spec: libp2p_core::upgrade::DeniedUpgrade (not
under the verified sources), the handler's associated OutboundProtocol
type: an upgrade that supports no protocol, so every outbound
negotiation attempt on it fails immediately and unconditionally. -/
inductive DeniedUpgrade where
  | denied
deriving DecidableEq, Repr

/-- Modelled from the spec: UpgradeInfo::protocol_info for
DeniedUpgrade — the empty list of supported protocols. -/
def DeniedUpgrade.protocol_info (_u : DeniedUpgrade) : List String :=
  []

/-- type OutboundProtocol = DeniedUpgrade (associated type of the
ConnectionHandler implementation in dial_back.rs). -/
def Handler.OutboundProtocol : Type :=
  DeniedUpgrade

/-- Outbound negotiation against an upgrade: succeeds only when the
requested protocol is among the upgrade's supported protocols. -/
def negotiateOutbound (u : DeniedUpgrade) (proto : String) : Option String :=
  if proto ∈ u.protocol_info then some proto else none

/-- One interaction of the surrounding reactor with the handler:
either a connection-level event delivered to on_connection_event, or
one call of poll under the given scheduling choice. -/
inductive HandlerInput where
  | connEvent (event : ConnectionEvent)
  | pollStep (sched : Option (Nat × Bool))
deriving DecidableEq, Repr

/-- One reactor interaction, recording the upward report it produced
(the identifier of the completed operation together with the
NotifyBehaviour payload), if any.  Connection events cannot report
upward because on_connection_event returns unit. -/
def Handler.step (h : Handler) (inp : HandlerInput) :
    Handler × Option (Nat × ToBehaviour) :=
  match inp with
  | HandlerInput.connEvent event => ((h.on_connection_event event).1, none)
  | HandlerInput.pollStep none => ((h.poll none).1, none)
  | HandlerInput.pollStep (some (i, b)) =>
    match h.poll (some (i, b)) with
    | (h2, HPoll.ready (ConnectionHandlerEvent.notifyBehaviour r)) => (h2, some (i, r))
    | (h2, _) => (h2, none)

/-- Run the handler through a list of reactor interactions, collecting
every upward report in order. -/
def Handler.run : Handler → List HandlerInput → Handler × List (Nat × ToBehaviour)
  | h, [] => (h, [])
  | h, inp :: rest =>
    ((Handler.run (Handler.step h inp).1 rest).1,
     (Handler.step h inp).2.toList ++ (Handler.run (Handler.step h inp).1 rest).2)

/-- How many pending operations of the pool carry the identifier i. -/
def pendingCount (i : Nat) : List (Nat × DialBackStream) → Nat
  | [] => 0
  | p :: ps => (if p.1 = i then 1 else 0) + pendingCount i ps

/-- The contribution of one trace input to the admission attempts for
identifier i (an inbound negotiation success delivering a stream
tagged i counts; everything else does not). -/
def admitsOf (i : Nat) (inp : HandlerInput) : Nat :=
  match inp with
  | HandlerInput.connEvent (ConnectionEvent.fullyNegotiatedInbound j _) =>
    if j = i then 1 else 0
  | _ => 0

/-- How many inputs of the trace are admission attempts for
identifier i. -/
def admitCount (i : Nat) : List HandlerInput → Nat
  | [] => 0
  | inp :: rest => admitsOf i inp + admitCount i rest

/-- How many inputs of the trace are poll calls. -/
def pollCount : List HandlerInput → Nat
  | [] => 0
  | HandlerInput.pollStep _ :: rest => 1 + pollCount rest
  | _ :: rest => pollCount rest

/-- How many upward reports of the trace belong to identifier i. -/
def reportCount (i : Nat) : List (Nat × ToBehaviour) → Nat
  | [] => 0
  | r :: rs => (if r.1 = i then 1 else 0) + reportCount i rs

/-- The trace input that delivers a freshly negotiated inbound stream. -/
def inboundInput (p : Nat × DialBackStream) : HandlerInput :=
  HandlerInput.connEvent (ConnectionEvent.fullyNegotiatedInbound p.1 p.2)

/-! Helper lemmas about the counters and the pool. -/

theorem pendingCount_append (i : Nat) (l1 l2 : List (Nat × DialBackStream)) :
    pendingCount i (l1 ++ l2) = pendingCount i l1 + pendingCount i l2 := by
  induction l1 with
  | nil => simp [pendingCount]
  | cons p ps ih => simp [pendingCount, ih]; omega

theorem reportCount_append (i : Nat) (l1 l2 : List (Nat × ToBehaviour)) :
    reportCount i (l1 ++ l2) = reportCount i l1 + reportCount i l2 := by
  induction l1 with
  | nil => simp [reportCount]
  | cons r rs ih => simp [reportCount, ih]; omega

theorem admitCount_append (i : Nat) (l1 l2 : List HandlerInput) :
    admitCount i (l1 ++ l2) = admitCount i l1 + admitCount i l2 := by
  induction l1 with
  | nil => simp [admitCount]
  | cons inp rest ih => simp [admitCount, ih]; omega

theorem findOp_of_pendingCount_pos (i : Nat) (l : List (Nat × DialBackStream))
    (hpos : 0 < pendingCount i l) : ∃ s, findOp l i = some s := by
  induction l with
  | nil => simp [pendingCount] at hpos
  | cons p ps ih =>
    by_cases hp : p.1 = i
    · exact ⟨p.2, by simp [findOp, hp]⟩
    · simp [pendingCount, hp] at hpos
      obtain ⟨s, hs⟩ := ih hpos
      exact ⟨s, by simp [findOp, hp, hs]⟩

theorem pendingCount_removeOp_self (i : Nat) (l : List (Nat × DialBackStream))
    (s : DialBackStream) (hfind : findOp l i = some s) :
    pendingCount i (removeOp l i) + 1 = pendingCount i l := by
  induction l with
  | nil => simp [findOp] at hfind
  | cons p ps ih =>
    by_cases hp : p.1 = i
    · simp [removeOp, pendingCount, hp]
      omega
    · simp [findOp, hp] at hfind
      simp [removeOp, pendingCount, hp, ih hfind]

theorem pendingCount_removeOp_ne (i j : Nat) (hne : j ≠ i)
    (l : List (Nat × DialBackStream)) :
    pendingCount i (removeOp l j) = pendingCount i l := by
  induction l with
  | nil => rfl
  | cons p ps ih =>
    by_cases hp : p.1 = j
    · simp [removeOp, pendingCount, hp, hne]
    · simp [removeOp, pendingCount, hp, ih]

/-! Helper lemmas about one handler interaction. -/

theorem on_connection_event_inbound (h : Handler) (streamId : Nat)
    (s : DialBackStream) :
    h.on_connection_event (ConnectionEvent.fullyNegotiatedInbound streamId s) =
      if h.inbound.pending.length < h.inbound.capacity then
        (⟨⟨h.inbound.timeout_ms, h.inbound.capacity,
           h.inbound.pending ++ [(streamId, s)]⟩⟩, none)
      else (h, some LogEvent.warnDroppedRequest) := by
  by_cases hlen : h.inbound.pending.length < h.inbound.capacity <;>
    simp [Handler.on_connection_event, FuturesSet.try_push, hlen]

theorem poll_none (h : Handler) : h.poll none = (h, HPoll.pendingPoll) := by
  simp [Handler.poll, FuturesSet.poll]

theorem poll_not_found (h : Handler) (i : Nat) (b : Bool)
    (hfind : findOp h.inbound.pending i = none) :
    h.poll (some (i, b)) = (h, HPoll.pendingPoll) := by
  simp [Handler.poll, FuturesSet.poll, hfind]

theorem poll_found (h : Handler) (i : Nat) (b : Bool) (s : DialBackStream)
    (hfind : findOp h.inbound.pending i = some s) :
    h.poll (some (i, b)) =
      (⟨⟨h.inbound.timeout_ms, h.inbound.capacity, removeOp h.inbound.pending i⟩⟩,
       HPoll.ready (ConnectionHandlerEvent.notifyBehaviour
         (if b then Except.error (IOError.new IOErrorKind.timedOut "future timed out")
          else (perform_dial_back s).result))) := by
  cases b <;>
    simp [Handler.poll, FuturesSet.poll, hfind, flattenCompletion, Except.mapError,
      Except.bind, Timeout.message]

theorem step_conn (h : Handler) (event : ConnectionEvent) :
    Handler.step h (HandlerInput.connEvent event) =
      ((h.on_connection_event event).1, none) := rfl

theorem step_poll_none (h : Handler) :
    Handler.step h (HandlerInput.pollStep none) = (h, none) := by
  simp [Handler.step, poll_none]

theorem step_poll_not_found (h : Handler) (i : Nat) (b : Bool)
    (hfind : findOp h.inbound.pending i = none) :
    Handler.step h (HandlerInput.pollStep (some (i, b))) = (h, none) := by
  simp [Handler.step, poll_not_found h i b hfind]

theorem step_poll_found (h : Handler) (i : Nat) (b : Bool) (s : DialBackStream)
    (hfind : findOp h.inbound.pending i = some s) :
    Handler.step h (HandlerInput.pollStep (some (i, b))) =
      (⟨⟨h.inbound.timeout_ms, h.inbound.capacity, removeOp h.inbound.pending i⟩⟩,
       some (i, if b then Except.error (IOError.new IOErrorKind.timedOut "future timed out")
                else (perform_dial_back s).result)) := by
  simp [Handler.step, poll_found h i b s hfind]

/-! Helper lemmas about whole runs. -/

theorem run_append (l1 l2 : List HandlerInput) : ∀ h : Handler,
    Handler.run h (l1 ++ l2) =
      ((Handler.run (Handler.run h l1).1 l2).1,
       (Handler.run h l1).2 ++ (Handler.run (Handler.run h l1).1 l2).2) := by
  induction l1 with
  | nil => intro h; simp [Handler.run]
  | cons inp rest ih =>
    intro h
    simp [Handler.run, ih (Handler.step h inp).1, List.append_assoc]

/-- Against a handler whose pool has the configured capacity, a pure
sequence of inbound negotiation successes grows the pending set to
min(previous + new, capacity), keeps the capacity, and never reports
anything upward. -/
theorem run_inbound_length (ops : List (Nat × DialBackStream)) :
    ∀ h : Handler, h.inbound.capacity = MAX_CONCURRENT_REQUESTS →
      h.inbound.pending.length ≤ MAX_CONCURRENT_REQUESTS →
      (Handler.run h (ops.map inboundInput)).1.inbound.pending.length
          = min (h.inbound.pending.length + ops.length) MAX_CONCURRENT_REQUESTS ∧
      (Handler.run h (ops.map inboundInput)).1.inbound.capacity
          = MAX_CONCURRENT_REQUESTS ∧
      (Handler.run h (ops.map inboundInput)).2 = [] := by
  induction ops with
  | nil =>
    intro h hcap hlen
    refine ⟨?_, hcap, rfl⟩
    simp [Handler.run]
    omega
  | cons p rest ih =>
    intro h hcap hlen
    have hstep := step_conn h (ConnectionEvent.fullyNegotiatedInbound p.1 p.2)
    rw [on_connection_event_inbound] at hstep
    by_cases hlt : h.inbound.pending.length < h.inbound.capacity
    · rw [if_pos hlt] at hstep
      have h2 : (Handler.step h (inboundInput p)).1 =
          ⟨⟨h.inbound.timeout_ms, h.inbound.capacity,
            h.inbound.pending ++ [(p.1, p.2)]⟩⟩ := by
        rw [inboundInput, hstep]
      obtain ⟨ha, hb, hc⟩ := ih (Handler.step h (inboundInput p)).1
        (by rw [h2]; exact hcap)
        (by rw [h2]; simp; omega)
      refine ⟨?_, ?_, ?_⟩
      · rw [List.map_cons, Handler.run, ha, h2]
        simp
        omega
      · rw [List.map_cons, Handler.run]
        exact hb
      · rw [List.map_cons, Handler.run, hc]
        rw [inboundInput, hstep]
        simp
    · rw [if_neg hlt] at hstep
      have h2 : (Handler.step h (inboundInput p)).1 = h := by
        rw [inboundInput, hstep]
      obtain ⟨ha, hb, hc⟩ := ih (Handler.step h (inboundInput p)).1
        (by rw [h2]; exact hcap) (by rw [h2]; exact hlen)
      refine ⟨?_, ?_, ?_⟩
      · rw [List.map_cons, Handler.run, ha, h2]
        simp
        omega
      · rw [List.map_cons, Handler.run]
        exact hb
      · rw [List.map_cons, Handler.run, hc]
        rw [inboundInput, hstep]
        simp

/-- Core accounting bound: reports for an identifier, plus what is
still pending for it, never exceed what was pending initially plus its
admission attempts in the trace. -/
theorem run_report_bound (i : Nat) (inputs : List HandlerInput) :
    ∀ h : Handler,
      reportCount i (Handler.run h inputs).2
          + pendingCount i (Handler.run h inputs).1.inbound.pending
        ≤ pendingCount i h.inbound.pending + admitCount i inputs := by
  induction inputs with
  | nil => intro h; simp [Handler.run, admitCount, reportCount]
  | cons inp rest ih =>
    intro h
    have hrun : Handler.run h (inp :: rest) =
        ((Handler.run (Handler.step h inp).1 rest).1,
         (Handler.step h inp).2.toList ++ (Handler.run (Handler.step h inp).1 rest).2) := rfl
    rw [hrun]
    have hih := ih (Handler.step h inp).1
    have hsplit : reportCount i
        ((Handler.step h inp).2.toList ++ (Handler.run (Handler.step h inp).1 rest).2)
        = reportCount i (Handler.step h inp).2.toList
          + reportCount i (Handler.run (Handler.step h inp).1 rest).2 :=
      reportCount_append i _ _
    rw [hsplit]
    have hstep : reportCount i (Handler.step h inp).2.toList
          + pendingCount i (Handler.step h inp).1.inbound.pending
        ≤ pendingCount i h.inbound.pending + admitsOf i inp := by
      cases inp with
      | connEvent event =>
        rw [step_conn]
        cases event with
        | fullyNegotiatedInbound j s =>
          rw [on_connection_event_inbound]
          by_cases hlt : h.inbound.pending.length < h.inbound.capacity
          · rw [if_pos hlt]
            simp [reportCount, pendingCount_append, pendingCount, admitsOf]
          · rw [if_neg hlt]
            simp [reportCount, admitsOf]
        | listenUpgradeError => simp [Handler.on_connection_event, reportCount, admitsOf]
        | otherEvent => simp [Handler.on_connection_event, reportCount, admitsOf]
      | pollStep sched =>
        match sched with
        | none => rw [step_poll_none]; simp [reportCount, admitsOf]
        | some (j, b) =>
          cases hfind : findOp h.inbound.pending j with
          | none => rw [step_poll_not_found h j b hfind]; simp [reportCount, admitsOf]
          | some s =>
            rw [step_poll_found h j b s hfind]
            by_cases hji : j = i
            · subst hji
              have := pendingCount_removeOp_self j h.inbound.pending s hfind
              simp [reportCount, admitsOf]
              omega
            · have := pendingCount_removeOp_ne i j hji h.inbound.pending
              simp [reportCount, admitsOf, hji, this]
    calc reportCount i (Handler.step h inp).2.toList
          + reportCount i (Handler.run (Handler.step h inp).1 rest).2
          + pendingCount i (Handler.run (Handler.step h inp).1 rest).1.inbound.pending
        ≤ reportCount i (Handler.step h inp).2.toList
            + (pendingCount i (Handler.step h inp).1.inbound.pending
              + admitCount i rest) := by omega
      _ ≤ pendingCount i h.inbound.pending + admitsOf i inp + admitCount i rest := by omega
      _ = pendingCount i h.inbound.pending + admitCount i (inp :: rest) := by
            simp [admitCount]
            omega

/-- Each reactor interaction produces at most one upward report, and
only poll calls can produce one. -/
theorem run_length_bound (inputs : List HandlerInput) : ∀ h : Handler,
    (Handler.run h inputs).2.length ≤ pollCount inputs := by
  induction inputs with
  | nil => intro h; simp [Handler.run, pollCount]
  | cons inp rest ih =>
    intro h
    have hrun : Handler.run h (inp :: rest) =
        ((Handler.run (Handler.step h inp).1 rest).1,
         (Handler.step h inp).2.toList ++ (Handler.run (Handler.step h inp).1 rest).2) := rfl
    rw [hrun]
    have hih := ih (Handler.step h inp).1
    cases inp with
    | connEvent event =>
      have h2 : (Handler.step h (HandlerInput.connEvent event)).2 = none := rfl
      rw [h2]
      simp [pollCount]
      exact hih
    | pollStep sched =>
      have htl : (Handler.step h (HandlerInput.pollStep sched)).2.toList.length ≤ 1 := by
        cases hstep : (Handler.step h (HandlerInput.pollStep sched)).2 <;> simp
      simp only [List.length_append, pollCount]
      omega

/-! Concrete inputs used by the witnesses. -/

/-- A stream whose read yields a valid message with nonce 42 and whose
close succeeds. -/
def streamW : DialBackStream :=
  ⟨Except.ok ⟨42⟩, Except.ok ()⟩

/-- A stream whose read fails with a connection-reset error. -/
def failStreamW : DialBackStream :=
  ⟨Except.error (IOError.new IOErrorKind.connectionReset "connection reset"),
   Except.ok ()⟩

/-- A handler whose pool holds the given stream as its only pending
operation, tagged 0. -/
def handlerW (s : DialBackStream) : Handler :=
  ⟨⟨DEFAULT_TIMEOUT, MAX_CONCURRENT_REQUESTS, [(0, s)]⟩⟩

/-! The claims. -/

/-- C3: when the pool reports that an admitted operation exceeded its
deadline, Handler::poll converts the TimeoutError into the same error
channel as an I/O failure: the one upward NotifyBehaviour event
carries Err of an io::Error whose kind is TimedOut, in the same
Result<Nonce, IOError> type as any generic I/O failure. -/
theorem timeout_collapsed_to_io_error (h : Handler) (i : Nat) (s : DialBackStream)
    (hfind : findOp h.inbound.pending i = some s) :
    (h.poll (some (i, true))).2 =
      HPoll.ready (ConnectionHandlerEvent.notifyBehaviour
        (Except.error (IOError.new IOErrorKind.timedOut "future timed out"))) := by
  rw [poll_found h i true s hfind]
  simp

theorem timeout_collapsed_to_io_error_witness :
    ((handlerW streamW).poll (some (0, true))).2 =
      HPoll.ready (ConnectionHandlerEvent.notifyBehaviour
        (Except.error (IOError.new IOErrorKind.timedOut "future timed out"))) :=
  timeout_collapsed_to_io_error (handlerW streamW) 0 streamW rfl

/-- C4: for every stream from which a complete valid dial-back message
carrying nonce n can be read and whose close succeeds,
perform_dial_back returns Ok(n), and the stream's write side has been
closed before the routine returns. -/
theorem perform_dial_back_roundtrip (s : DialBackStream) (n : Nonce)
    (hread : s.readResult = Except.ok ⟨n⟩)
    (hclose : s.closeResult = Except.ok ()) :
    perform_dial_back s = ⟨Except.ok n, true⟩ := by
  simp [perform_dial_back, DialBack.read_from, hread, hclose]

theorem perform_dial_back_roundtrip_witness :
    perform_dial_back streamW = ⟨Except.ok 42, true⟩ :=
  perform_dial_back_roundtrip streamW 42 rfl rfl

/-- C5: when reading the dial-back message fails, or reading succeeds
but closing the stream fails, perform_dial_back returns Err carrying
that underlying I/O error, and the handler's poll surfaces exactly
that error, unmodified, in the NotifyBehaviour event. -/
theorem failure_surfaced_unmodified (s : DialBackStream) (e : IOError)
    (hfail : s.readResult = Except.error e ∨
      ∃ message, s.readResult = Except.ok message ∧ s.closeResult = Except.error e)
    (h : Handler) (i : Nat)
    (hfind : findOp h.inbound.pending i = some s) :
    (perform_dial_back s).result = Except.error e ∧
    (h.poll (some (i, false))).2 =
      HPoll.ready (ConnectionHandlerEvent.notifyBehaviour (Except.error e)) := by
  have hres : (perform_dial_back s).result = Except.error e := by
    rcases hfail with hr | ⟨m, hr, hc⟩
    · simp [perform_dial_back, DialBack.read_from, hr]
    · simp [perform_dial_back, DialBack.read_from, hr, hc]
  refine ⟨hres, ?_⟩
  rw [poll_found h i false s hfind]
  simp [hres]

theorem failure_surfaced_unmodified_witness :
    (perform_dial_back failStreamW).result
        = Except.error (IOError.new IOErrorKind.connectionReset "connection reset") ∧
    ((handlerW failStreamW).poll (some (0, false))).2 =
      HPoll.ready (ConnectionHandlerEvent.notifyBehaviour
        (Except.error (IOError.new IOErrorKind.connectionReset "connection reset"))) :=
  failure_surfaced_unmodified failStreamW
    (IOError.new IOErrorKind.connectionReset "connection reset")
    (Or.inl rfl) (handlerW failStreamW) 0 rfl

/-- C6 counterexample: the claim says timeout and capacity are
supplied to the handler at construction as parameters with no defaults
hardwired by this core.  In the code Handler::new takes no parameters:
the constructed handler's deadline and capacity are always the
hardwired module constants DEFAULT_TIMEOUT and MAX_CONCURRENT_REQUESTS,
which refutes the claim on the (only possible) construction input. -/
theorem config_hardwired_counterexample :
    Handler.new.inbound.timeout_ms = DEFAULT_TIMEOUT ∧
    Handler.new.inbound.capacity = MAX_CONCURRENT_REQUESTS :=
  ⟨rfl, rfl⟩

/-- C6 (amended): the per-operation timeout and the pool capacity are
not construction parameters: Handler::new takes no configuration, and
every constructed handler starts with an empty pool configured from
the hardwired module constants DEFAULT_TIMEOUT and
MAX_CONCURRENT_REQUESTS. -/
theorem handler_new_uses_module_constants :
    Handler.new.inbound = FuturesSet.new DEFAULT_TIMEOUT MAX_CONCURRENT_REQUESTS ∧
    Handler.new.inbound.pending = [] ∧
    Handler.new.inbound.timeout_ms = DEFAULT_TIMEOUT ∧
    Handler.new.inbound.capacity = MAX_CONCURRENT_REQUESTS :=
  ⟨rfl, rfl, rfl, rfl⟩

/-- C7: a failed inbound negotiation (ListenUpgradeError) admits
nothing to the pool, emits no upward event and leaves the handler
unchanged, producing only a debug-level log; every other
connection-level event kind is ignored entirely. -/
theorem negotiation_failure_isolated (h : Handler) :
    h.on_connection_event ConnectionEvent.listenUpgradeError
        = (h, some LogEvent.debugUpgradeError) ∧
    Handler.step h (HandlerInput.connEvent ConnectionEvent.listenUpgradeError)
        = (h, none) ∧
    h.on_connection_event ConnectionEvent.otherEvent = (h, none) ∧
    Handler.step h (HandlerInput.connEvent ConnectionEvent.otherEvent) = (h, none) :=
  ⟨rfl, rfl, rfl, rfl⟩

/-- C8: the handler's outbound protocol is the always-denied upgrade —
every outbound negotiation attempt on it fails because it supports no
protocol — and the handler's poll never emits an outbound-open
request: it only ever returns Pending or NotifyBehaviour. -/
theorem outbound_always_denied :
    (∀ (u : Handler.OutboundProtocol) (proto : String),
      negotiateOutbound u proto = none) ∧
    (∀ (h : Handler) (sched : Option (Nat × Bool)),
      (h.poll sched).2 = HPoll.pendingPoll ∨
      ∃ r, (h.poll sched).2
          = HPoll.ready (ConnectionHandlerEvent.notifyBehaviour r)) := by
  constructor
  · intro u proto
    simp [negotiateOutbound, DeniedUpgrade.protocol_info]
  · intro h sched
    match sched with
    | none =>
      exact Or.inl (by rw [poll_none])
    | some (i, b) =>
      cases hfind : findOp h.inbound.pending i with
      | none => exact Or.inl (by rw [poll_not_found h i b hfind])
      | some s =>
        refine Or.inr ⟨if b then Except.error (IOError.new IOErrorKind.timedOut
          "future timed out") else (perform_dial_back s).result, ?_⟩
        rw [poll_found h i b s hfind]

/-- C9: in every handler state, connection_keep_alive returns false,
no matter how many operations are pending in the pool. -/
theorem keep_alive_always_false (h : Handler) :
    h.connection_keep_alive = false := rfl

/-- C10: if reading the dial-back message fails, perform_dial_back
returns that error immediately without attempting to close the stream:
on the read-failure path the close is never invoked. -/
theorem read_failure_skips_close (s : DialBackStream) (e : IOError)
    (hread : s.readResult = Except.error e) :
    perform_dial_back s = ⟨Except.error e, false⟩ := by
  simp [perform_dial_back, DialBack.read_from, hread]

theorem read_failure_skips_close_witness :
    perform_dial_back failStreamW
      = ⟨Except.error (IOError.new IOErrorKind.connectionReset "connection reset"),
         false⟩ :=
  read_failure_skips_close failStreamW
    (IOError.new IOErrorKind.connectionReset "connection reset") rfl

/-- C1: deliver any sequence of N inbound negotiation-success events
to a freshly constructed handler, whose pool capacity is
K = MAX_CONCURRENT_REQUESTS, with N > K (witnessed by an index j with
K ≤ j < N).  Then: no upward event is ever produced; after any number
n of the events the pool holds exactly min(n, K) operations, so at
most K are concurrently admitted at any time; and each admission
attempt at an index at or past K is rejected immediately with a
warning log, leaving the handler unchanged. -/
theorem capacity_invariant (ops : List (Nat × DialBackStream)) (n j : Nat)
    (hK : MAX_CONCURRENT_REQUESTS ≤ j) (hj : j < ops.length) :
    (Handler.run Handler.new (ops.map inboundInput)).2 = [] ∧
    (Handler.run Handler.new ((ops.take n).map inboundInput)).1.inbound.pending.length
        = min (ops.take n).length MAX_CONCURRENT_REQUESTS ∧
    (Handler.run Handler.new ((ops.take n).map inboundInput)).1.inbound.pending.length
        ≤ MAX_CONCURRENT_REQUESTS ∧
    Handler.on_connection_event
        (Handler.run Handler.new ((ops.take j).map inboundInput)).1
        (ConnectionEvent.fullyNegotiatedInbound (ops.get ⟨j, hj⟩).1 (ops.get ⟨j, hj⟩).2)
      = ((Handler.run Handler.new ((ops.take j).map inboundInput)).1,
         some LogEvent.warnDroppedRequest) := by
  have hnew_cap : Handler.new.inbound.capacity = MAX_CONCURRENT_REQUESTS := rfl
  have hnew0 : Handler.new.inbound.pending.length = 0 := rfl
  have hnew_len : Handler.new.inbound.pending.length ≤ MAX_CONCURRENT_REQUESTS := by
    rw [hnew0]; exact Nat.zero_le _
  obtain ⟨_, _, hrep⟩ := run_inbound_length ops Handler.new hnew_cap hnew_len
  obtain ⟨hlen_n, _, _⟩ := run_inbound_length (ops.take n) Handler.new hnew_cap hnew_len
  obtain ⟨hlen_j, hcap_j, _⟩ := run_inbound_length (ops.take j) Handler.new hnew_cap hnew_len
  have hjlen : (ops.take j).length = j := by
    simp [List.length_take]
    omega
  have hfull : (Handler.run Handler.new
      ((ops.take j).map inboundInput)).1.inbound.pending.length
      = MAX_CONCURRENT_REQUESTS := by
    rw [hlen_j, hnew0, hjlen]
    omega
  have hnot : ¬ ((Handler.run Handler.new
        ((ops.take j).map inboundInput)).1.inbound.pending.length
      < (Handler.run Handler.new
        ((ops.take j).map inboundInput)).1.inbound.capacity) := by
    rw [hfull, hcap_j]
    omega
  refine ⟨hrep, ?_, ?_, ?_⟩
  · rw [hlen_n, hnew0]
    simp
  · rw [hlen_n, hnew0]
    omega
  · rw [on_connection_event_inbound, if_neg hnot]

/-- Twelve distinct inbound streams, more than the capacity of ten. -/
def opsW : List (Nat × DialBackStream) :=
  (List.range 12).map (fun k => (k, ⟨Except.ok ⟨k⟩, Except.ok ()⟩))

theorem capacity_invariant_witness :
    MAX_CONCURRENT_REQUESTS ≤ 10 ∧ 10 < opsW.length ∧
    (Handler.run Handler.new ((opsW.take 4).map inboundInput)).1.inbound.pending.length
        = min (opsW.take 4).length MAX_CONCURRENT_REQUESTS ∧
    Handler.on_connection_event
        (Handler.run Handler.new ((opsW.take 10).map inboundInput)).1
        (ConnectionEvent.fullyNegotiatedInbound (opsW.get ⟨10, by decide⟩).1
          (opsW.get ⟨10, by decide⟩).2)
      = ((Handler.run Handler.new ((opsW.take 10).map inboundInput)).1,
         some LogEvent.warnDroppedRequest) :=
  ⟨by decide, by decide,
   (capacity_invariant opsW 4 10 (by decide) (by decide)).2.1,
   (capacity_invariant opsW 4 10 (by decide) (by decide)).2.2.2⟩

/-- C2: in any reactor trace that admits the operation tagged i at
most once and, at some poll, schedules i as ready while it is pending
in the pool, the whole trace surfaces exactly one upward completion
for i — later polls never re-report it — and every poll call emits at
most one upward event (the trace never carries more events than poll
calls). -/
theorem exactly_once_report (l1 l2 : List HandlerInput) (i : Nat) (b : Bool)
    (hadm : admitCount i (l1 ++ HandlerInput.pollStep (some (i, b)) :: l2) ≤ 1)
    (hpend : 0 < pendingCount i (Handler.run Handler.new l1).1.inbound.pending) :
    reportCount i (Handler.run Handler.new
        (l1 ++ HandlerInput.pollStep (some (i, b)) :: l2)).2 = 1 ∧
    (Handler.run Handler.new
        (l1 ++ HandlerInput.pollStep (some (i, b)) :: l2)).2.length
      ≤ pollCount (l1 ++ HandlerInput.pollStep (some (i, b)) :: l2) := by
  refine ⟨?_, run_length_bound _ Handler.new⟩
  have hbound1 := run_report_bound i l1 Handler.new
  have hnewpc : pendingCount i Handler.new.inbound.pending = 0 := rfl
  rw [hnewpc] at hbound1
  have hsplit : admitCount i (l1 ++ HandlerInput.pollStep (some (i, b)) :: l2)
      = admitCount i l1 + admitCount i l2 := by
    rw [admitCount_append]
    simp [admitCount, admitsOf]
  rw [hsplit] at hadm
  have hrc1 : reportCount i (Handler.run Handler.new l1).2 = 0 := by omega
  have hac2 : admitCount i l2 = 0 := by omega
  obtain ⟨s, hfind⟩ := findOp_of_pendingCount_pos i _ hpend
  have hstep := step_poll_found (Handler.run Handler.new l1).1 i b s hfind
  have hstep1 : (Handler.step (Handler.run Handler.new l1).1
      (HandlerInput.pollStep (some (i, b)))).1 =
      ⟨⟨(Handler.run Handler.new l1).1.inbound.timeout_ms,
        (Handler.run Handler.new l1).1.inbound.capacity,
        removeOp (Handler.run Handler.new l1).1.inbound.pending i⟩⟩ := by
    rw [hstep]
  have hstep2 : (Handler.step (Handler.run Handler.new l1).1
      (HandlerInput.pollStep (some (i, b)))).2 =
      some (i, if b then Except.error (IOError.new IOErrorKind.timedOut
          "future timed out") else (perform_dial_back s).result) := by
    rw [hstep]
  have hpc1 : pendingCount i (Handler.run Handler.new l1).1.inbound.pending = 1 := by
    omega
  have hremove : pendingCount i
      (removeOp (Handler.run Handler.new l1).1.inbound.pending i) = 0 := by
    have := pendingCount_removeOp_self i _ s hfind
    omega
  have hpc2 : pendingCount i (Handler.step (Handler.run Handler.new l1).1
      (HandlerInput.pollStep (some (i, b)))).1.inbound.pending = 0 := by
    rw [hstep1]
    exact hremove
  have hrc2 : reportCount i (Handler.run (Handler.step (Handler.run Handler.new l1).1
      (HandlerInput.pollStep (some (i, b)))).1 l2).2 = 0 := by
    have hb2 := run_report_bound i l2 (Handler.step (Handler.run Handler.new l1).1
      (HandlerInput.pollStep (some (i, b)))).1
    rw [hpc2, hac2] at hb2
    omega
  have happ : (Handler.run Handler.new
      (l1 ++ HandlerInput.pollStep (some (i, b)) :: l2)).2
      = (Handler.run Handler.new l1).2
        ++ (Handler.run (Handler.run Handler.new l1).1
            (HandlerInput.pollStep (some (i, b)) :: l2)).2 := by
    rw [run_append]
  have hcons : (Handler.run (Handler.run Handler.new l1).1
      (HandlerInput.pollStep (some (i, b)) :: l2)).2
      = (Handler.step (Handler.run Handler.new l1).1
          (HandlerInput.pollStep (some (i, b)))).2.toList
        ++ (Handler.run (Handler.step (Handler.run Handler.new l1).1
            (HandlerInput.pollStep (some (i, b)))).1 l2).2 := rfl
  rw [happ, reportCount_append, hrc1, hcons, reportCount_append, hstep2, hrc2]
  simp [reportCount]

/-- A three-step trace for the witness: admit stream 5, poll it ready,
then poll it again; the completion is reported exactly once. -/
def traceHeadW : List HandlerInput :=
  [inboundInput (5, streamW)]

theorem exactly_once_report_witness :
    reportCount 5 (Handler.run Handler.new
        (traceHeadW ++ HandlerInput.pollStep (some (5, false))
          :: [HandlerInput.pollStep (some (5, false))])).2 = 1 ∧
    (Handler.run Handler.new
        (traceHeadW ++ HandlerInput.pollStep (some (5, false))
          :: [HandlerInput.pollStep (some (5, false))])).2.length
      ≤ pollCount (traceHeadW ++ HandlerInput.pollStep (some (5, false))
          :: [HandlerInput.pollStep (some (5, false))]) :=
  exactly_once_report traceHeadW [HandlerInput.pollStep (some (5, false))] 5 false
    (by decide) (by decide)

end DialBackHandler
